import Mathlib

/-
Shallow embedding of the playback-queue subsystem of the
Listen-to-the-Music repository (src/Track.py, src/Queue.py, src/Main.py).

The queue's doubly-linked list is modelled as a `List Track` (the nodes
reachable from `__headNode` through `nextNode`, in order); the node
reference `__activeNode` is modelled as the index of that node in the
list (`none` for Python's `None`).  The cached `__queueSize` field is
kept as an explicit, separately maintained field so that its consistency
with the list is a provable invariant rather than a modelling artifact.
-/

namespace ListenMusic

/-- The artist field of a track: Python stores either a single string or a
list of strings. -/
inductive ArtistVal where
  | single (s : String)
  | multiple (names : List String)
deriving DecidableEq, Repr

/-- Python repr of a list of strings, e.g. `['A', 'B']`, assuming the names
contain no quote or backslash characters (the only forms the catalog
produces). -/
def pyStrList (names : List String) : String :=
  "[" ++ String.intercalate ", " (names.map (fun s => "\x27" ++ s ++ "\x27")) ++ "]"

/-- Python `str()` applied to the artist field, as used by `Track.__eq__`
(`str(self.__trackArtist) == str(other.__trackArtist)`). -/
def artistStr : ArtistVal → String
  | .single s => s
  | .multiple names => pyStrList names

/-- src/Track.py `Track`: title, artist, album, duration ("mm:ss"). -/
structure Track where
  title : String
  artist : ArtistVal
  album : String
  duration : String
deriving DecidableEq, Repr

/-- src/Track.py lines 86-92, `Track.__eq__`: exact comparison of title,
`str(artist)`, album and duration (no case normalization appears in the
source). -/
def trackEq (a b : Track) : Bool :=
  a.title == b.title &&
  artistStr a.artist == artistStr b.artist &&
  a.album == b.album &&
  a.duration == b.duration

/-- Case normalization for the spec-side equality notion: lower-case every
character. -/
def lowerStr (s : String) : String :=
  String.mk (s.data.map Char.toLower)

/-- Lower-cased artist names, for the spec-side equality notion. -/
def lowerArtists : ArtistVal → List String
  | .single s => [lowerStr s]
  | .multiple names => names.map lowerStr

/-- Case-normalized artist sets compared as sets (mutual containment). -/
def sameArtistSet (a b : ArtistVal) : Bool :=
  ((lowerArtists a).all (fun x => (lowerArtists b).contains x)) &&
  ((lowerArtists b).all (fun x => (lowerArtists a).contains x))

/-- Modelled from the spec (not the source), for comparison against
`trackEq`: "identity determined by (title, artist-set, album,
duration-string), compared case-insensitively on title/artist/album; two
track references are equal iff all four fields match after this
normalization." -/
def specTrackEq (a b : Track) : Bool :=
  lowerStr a.title == lowerStr b.title &&
  sameArtistSet a.artist b.artist &&
  lowerStr a.album == lowerStr b.album &&
  a.duration == b.duration

/-- JSON values, the shape of the persisted queue-state file. -/
inductive Json where
  | str (s : String)
  | int (n : Int)
  | bool (b : Bool)
  | arr (items : List Json)
  | obj (fields : List (String × Json))
  | null

/-- Python dict subscript `d[key]`: the value, or a KeyError (`.error`). -/
def jsonGet (fields : List (String × Json)) (key : String) : Except Unit Json :=
  match fields.find? (fun p => p.1 == key) with
  | some p => .ok p.2
  | none => .error ()

/-- JSON form of the artist field (a string or a list of strings). -/
def artistToJson : ArtistVal → Json
  | .single s => .str s
  | .multiple names => .arr (names.map .str)

/-- src/Track.py `Track.toDict`: the four-field dictionary. -/
def toDict (t : Track) : Json :=
  .obj [("title", .str t.title),
        ("artist", artistToJson t.artist),
        ("album", .str t.album),
        ("duration", .str t.duration)]

/-- Decode a JSON array of strings (the multi-artist form). -/
def decodeStrings : List Json → Except Unit (List String)
  | [] => .ok []
  | .str s :: rest => (decodeStrings rest).map (fun ss => s :: ss)
  | _ :: _ => .error ()

/-- Decode an artist value from JSON (string or list-of-strings form). -/
def jsonToArtist : Json → Except Unit ArtistVal
  | .str s => .ok (.single s)
  | .arr items => (decodeStrings items).map .multiple
  | _ => .error ()

/-- Decode a JSON value that must be a string. -/
def asString : Json → Except Unit String
  | .str s => .ok s
  | _ => .error ()

/-- src/Track.py `Track.fromDict`: `Track(data["title"], data["artist"],
data["album"], data["duration"])`.  A missing key raises (KeyError → the
`.error` case).  Python would store arbitrary values in the four fields;
the model restricts them to the string / artist shapes the program itself
ever serializes, treating other shapes as a decode failure. -/
def fromDict (j : Json) : Except Unit Track :=
  match j with
  | .obj fields => do
      let tj ← jsonGet fields "title"
      let aj ← jsonGet fields "artist"
      let bj ← jsonGet fields "album"
      let dj ← jsonGet fields "duration"
      let title ← asString tj
      let artist ← jsonToArtist aj
      let album ← asString bj
      let duration ← asString dj
      .ok ⟨title, artist, album, duration⟩
  | _ => .error ()

/-- src/Queue.py `Queue` state.  `tracks` is the node sequence from
`__headNode` via `nextNode`; `active` is the index of `__activeNode` in
that sequence (`none` for Python `None`); `queueSize` is the cached
`__queueSize` counter, maintained exactly where the source maintains it. -/
structure QueueState where
  tracks : List Track
  active : Option Nat
  queueSize : Nat
  shuffleEnabled : Bool
  repeatEnabled : Bool
  playbackActive : Bool
  originalSequence : List Track
deriving DecidableEq, Repr

/-- src/Queue.py `Queue.__init__`: the empty queue. -/
def initQueue : QueueState :=
  { tracks := [], active := none, queueSize := 0, shuffleEnabled := false,
    repeatEnabled := false, playbackActive := false, originalSequence := [] }

/-- src/Queue.py `Queue.getSize`: returns the cached counter. -/
def getSize (q : QueueState) : Nat := q.queueSize

/-- src/Queue.py `Queue.getCurrentTrack`. -/
def getCurrentTrack (q : QueueState) : Option Track :=
  q.active.bind (fun i => q.tracks[i]?)

/-- src/Queue.py lines 56-91, `Queue.addTrack`: scan the whole list for a
`Track.__eq__` duplicate and reject; otherwise append a node at the tail
(head/tail/active when the queue was empty), recount `__queueSize` by
walking from the head, and append to `__originalSequence` when not
shuffled. -/
def addTrack (q : QueueState) (track : Track) : Bool × QueueState :=
  if q.tracks.any (fun t => trackEq t track) then
    (false, q)
  else
    let newTracks := q.tracks ++ [track]
    (true,
      { q with
        tracks := newTracks,
        active := if q.tracks.isEmpty then some 0 else q.active,
        queueSize := newTracks.length,
        originalSequence :=
          if q.shuffleEnabled then q.originalSequence
          else q.originalSequence ++ [track] })

/-- src/Queue.py lines 94-97, `Queue.loadTracks` (the in-memory part:
`addTrack` applied to each element; persistence is handled in the system
layer below). -/
def loadTracks (q : QueueState) (trackCollection : List Track) : QueueState :=
  trackCollection.foldl (fun acc t => (addTrack acc t).2) q

/-- Whether `self.__activeNode == self.__tailNode` holds: both `None`
(empty queue), or the active index is the last index. -/
def activeAtTail (q : QueueState) : Bool :=
  match q.active with
  | none => q.tracks.isEmpty
  | some i => i + 1 == q.tracks.length

/-- src/Queue.py lines 100-104, `Queue.startPlayback`: rewind the active
node to the head when repeat is off and active is the tail, then set the
playing flag. -/
def startPlayback (q : QueueState) : QueueState :=
  let q1 :=
    if !q.repeatEnabled && activeAtTail q then
      { q with active := if q.tracks.isEmpty then none else some 0 }
    else q
  { q1 with playbackActive := true }

/-- src/Queue.py lines 107-109, `Queue.pausePlayback`. -/
def pausePlayback (q : QueueState) : QueueState :=
  { q with playbackActive := false }

/-- src/Queue.py lines 112-128, `Queue.advanceToNext`: move to the forward
neighbor when it exists; else wrap to the head when repeat is on; else set
playing false and return `none`.  Returns the new active track on
success. -/
def advanceToNext (q : QueueState) : Option Track × QueueState :=
  match q.active with
  | none => (none, q)
  | some i =>
    if i + 1 < q.tracks.length then
      ((q.tracks[i + 1]?), { q with active := some (i + 1) })
    else if q.repeatEnabled then
      ((q.tracks[0]?),
        { q with active := if q.tracks.isEmpty then none else some 0 })
    else
      (none, { q with playbackActive := false })

/-- src/Queue.py lines 131-142, `Queue.rewindToPrevious`: move to the
backward neighbor when it exists; else wrap to the tail when repeat is on;
else stay put.  Returns the (possibly unchanged) active track. -/
def rewindToPrevious (q : QueueState) : Option Track × QueueState :=
  match q.active with
  | none => (none, q)
  | some i =>
    let q1 :=
      if 0 < i then { q with active := some (i - 1) }
      else if q.repeatEnabled then
        { q with active :=
            if q.tracks.isEmpty then none else some (q.tracks.length - 1) }
      else q
    (q1.active.bind (fun j => q1.tracks[j]?), q1)

/-- src/Queue.py lines 145-250, `Queue.shuffleQueue`: no-op when already
shuffled or `__queueSize <= 1`.  Captures `__originalSequence` when it is
empty; finds the active node's position; splits into preceding / active /
following; permutes only the following part (`random.shuffle`, modelled by
the parameter `sh`); rebuilds the list as preceding ++ [active] ++
permuted following, repositioning the active reference onto the rebuilt
active node; falls back to the head when there was no active node; sets
the shuffled flag.  (An active reference dangling outside the list cannot
be represented in the index model; no reachable state has one.) -/
def shuffleQueue (sh : List Track → List Track) (q : QueueState) : QueueState :=
  if q.shuffleEnabled then q
  else if q.queueSize ≤ 1 then q
  else
    let orig := if q.originalSequence.isEmpty then q.tracks else q.originalSequence
    let activeTrack : Option Track := q.active.bind (fun i => q.tracks[i]?)
    let preceding :=
      match q.active with
      | some i => if i < q.tracks.length then q.tracks.take i else []
      | none => []
    let following :=
      match q.active with
      | some i => if i < q.tracks.length then q.tracks.drop (i + 1) else q.tracks
      | none => q.tracks
    let newTracks :=
      preceding ++ (match activeTrack with | some t => [t] | none => []) ++ sh following
    { q with
      tracks := newTracks,
      queueSize := newTracks.length,
      active :=
        match activeTrack with
        | some _ => some preceding.length
        | none => if newTracks.isEmpty then none else some 0,
      originalSequence := orig,
      shuffleEnabled := true }

/-- The active-relocation scan of `restoreOriginalOrder` (src/Queue.py
lines 296-304): the index of the first node whose track `Track.__eq__`s
the previously active track, walking from the head. -/
def findTrackIdx (l : List Track) (t : Track) : Option Nat :=
  match l with
  | [] => none
  | x :: rest => if trackEq x t then some 0 else (findTrackIdx rest t).map (· + 1)

/-- src/Queue.py lines 253-311, `Queue.restoreOriginalOrder`: no-op when
not shuffled.  Collects tracks of the current list that have no
`Track.__eq__` match in `__originalSequence`, rebuilds the list as
`__originalSequence ++ newlyAdded`, appends the newly added tracks to
`__originalSequence`, re-locates the active node as the first node whose
track equals the previously active track (falling back to the head), and
clears the shuffled flag. -/
def restoreOriginalOrder (q : QueueState) : QueueState :=
  if !q.shuffleEnabled then q
  else
    let activeTrack : Option Track := q.active.bind (fun i => q.tracks[i]?)
    let newlyAdded :=
      q.tracks.filter (fun t => !(q.originalSequence.any (fun o => trackEq t o)))
    let allTracks := q.originalSequence ++ newlyAdded
    { q with
      tracks := allTracks,
      queueSize := allTracks.length,
      originalSequence := q.originalSequence ++ newlyAdded,
      active :=
        match activeTrack with
        | some t =>
          match findTrackIdx allTracks t with
          | some j => some j
          | none => if allTracks.isEmpty then none else some 0
        | none => if allTracks.isEmpty then none else some 0,
      shuffleEnabled := false }

/-- src/Queue.py lines 316-319, `Queue.toggleRepeat`. -/
def toggleRepeat (q : QueueState) : Bool × QueueState :=
  (!q.repeatEnabled, { q with repeatEnabled := !q.repeatEnabled })

/-- src/Queue.py lines 322-331, `Queue.clearQueue`: reset every field. -/
def clearQueue (_q : QueueState) : QueueState := initQueue

/-- The persisted structure, src/Queue.py lines 468-475 (`stateData`).
`tracks` and `originalOrder` are held as track values; the physical file
is `stateToJson` of this record. -/
structure SavedState where
  tracks : List Track
  currentIndex : Int
  isShuffled : Bool
  isRepeat : Bool
  isPlaying : Bool
  originalOrder : List Track
deriving DecidableEq, Repr

/-- The `current_index` computed by the save loop (src/Queue.py lines
456-464): the position at which the walk meets `__activeNode`, `-1` when
it never does. -/
def saveActiveIndex (q : QueueState) : Int :=
  match q.active with
  | some i => if i < q.tracks.length then (i : Int) else -1
  | none => -1

/-- src/Queue.py lines 453-480, `Queue.saveQueueState`: serialize the
sequence head-to-tail, the zero-based active index (or -1), the three
flags and `__originalSequence`. -/
def saveQueueState (q : QueueState) : SavedState :=
  { tracks := q.tracks,
    currentIndex := saveActiveIndex q,
    isShuffled := q.shuffleEnabled,
    isRepeat := q.repeatEnabled,
    isPlaying := q.playbackActive,
    originalOrder := q.originalSequence }

/-- JSON rendering of the persisted structure (the `json.dump` layout of
src/Queue.py lines 468-480). -/
def stateToJson (s : SavedState) : Json :=
  .obj [("tracks", .arr (s.tracks.map toDict)),
        ("current_index", .int s.currentIndex),
        ("is_shuffled", .bool s.isShuffled),
        ("is_repeat", .bool s.isRepeat),
        ("is_playing", .bool s.isPlaying),
        ("original_order", .arr (s.originalOrder.map toDict))]

/-- The track-restoring loop of `loadQueueState` (src/Queue.py lines
497-507): append each decoded track to the list; a decode failure raises
mid-loop, leaving the tracks appended so far (`.error` carries them). -/
def appendTracksFromJson : List Json → List Track → Except (List Track) (List Track)
  | [], acc => .ok acc
  | j :: rest, acc =>
    match fromDict j with
    | .ok t => appendTracksFromJson rest (acc ++ [t])
    | .error _ => .error acc

/-- src/Queue.py lines 483-531, `Queue.loadQueueState`, applied to the
queue `q` it runs on and the persisted file (`none` = file missing, or
unparseable JSON — both leave `q` untouched and report `false`; the clear
of head/tail/size at lines 492-494 happens only after `json.load`
succeeds).  Any exception inside the `try` block is caught and reported
as `false`, with whatever mutations had already been performed left in
place — the model mirrors that partial-mutation behavior step by step.
Python would accept non-int `current_index` arrays or non-bool flags and
store them verbatim; the model restricts those fields to the types the
program itself writes, which is all the claims exercise. -/
def loadQueueState (q : QueueState) (file : Option Json) : Bool × QueueState :=
  match file with
  | none => (false, q)
  | some stateData =>
    let q1 := { q with tracks := [], queueSize := 0 }
    match stateData with
    | .obj fields =>
      match jsonGet fields "tracks" with
      | .error _ => (false, q1)
      | .ok tracksJson =>
        match tracksJson with
        | .arr items =>
          match appendTracksFromJson items [] with
          | .error partialTracks =>
            (false, { q1 with tracks := partialTracks,
                              queueSize := partialTracks.length })
          | .ok ts =>
            let q2 := { q1 with tracks := ts, queueSize := ts.length }
            match jsonGet fields "current_index" with
            | .error _ => (false, q2)
            | .ok idxJson =>
              match idxJson with
              | .int idx =>
                let q3 :=
                  if 0 ≤ idx then
                    { q2 with active :=
                        if idx.toNat < ts.length then some idx.toNat else none }
                  else q2
                match jsonGet fields "is_shuffled" with
                | .error _ => (false, q3)
                | .ok sj =>
                  match sj with
                  | .bool sb =>
                    let q4 := { q3 with shuffleEnabled := sb }
                    match jsonGet fields "is_repeat" with
                    | .error _ => (false, q4)
                    | .ok rj =>
                      match rj with
                      | .bool rb =>
                        let q5 := { q4 with repeatEnabled := rb }
                        match jsonGet fields "is_playing" with
                        | .error _ => (false, q5)
                        | .ok pj =>
                          match pj with
                          | .bool pb =>
                            let q6 := { q5 with playbackActive := pb }
                            let q7 := { q6 with originalSequence := [] }
                            match jsonGet fields "original_order" with
                            | .error _ => (false, q7)
                            | .ok oj =>
                              match oj with
                              | .arr oitems =>
                                match appendTracksFromJson oitems [] with
                                | .error part =>
                                  (false, { q7 with originalSequence := part })
                                | .ok os =>
                                  (true, { q7 with originalSequence := os })
                              | _ => (false, q7)
                          | _ => (false, q5)
                      | _ => (false, q4)
                  | _ => (false, q3)
              | _ => (false, q2)
        | _ => (false, q1)
    | _ => (false, q1)

/-- The queue together with the durable file `storage/queue_state.json`
(`none` = absent; the physical contents are `stateToJson` of the stored
record).  Durable writes are modelled as always succeeding, matching the
single-threaded, blocking-write model of the source. -/
structure Sys where
  queue : QueueState
  durable : Option SavedState
deriving DecidableEq, Repr

/-- The persistence contract: the durable file holds exactly the
serialization of the current in-memory queue state. -/
abbrev persistInv (s : Sys) : Prop :=
  s.durable = some (saveQueueState s.queue)

/-- `Queue.addTrack` at the system level: the method itself never calls
`saveQueueState` (src/Queue.py lines 56-91 contain no save). -/
def sysAddTrack (s : Sys) (t : Track) : Bool × Sys :=
  let r := addTrack s.queue t
  (r.1, { s with queue := r.2 })

/-- src/Main.py lines 188-202, `handleAddTrackToQueue` (the queue-facing
part): `addTrack`, then `saveQueueState` only when the add succeeded. -/
def handleAddTrackToQueue (s : Sys) (t : Track) : Sys :=
  let r := addTrack s.queue t
  if r.1 then { queue := r.2, durable := some (saveQueueState r.2) }
  else { s with queue := r.2 }

/-- src/Queue.py lines 94-97, `Queue.loadTracks`: add every track, then
persist once at the end. -/
def sysLoadTracks (s : Sys) (coll : List Track) : Sys :=
  let q2 := loadTracks s.queue coll
  { queue := q2, durable := some (saveQueueState q2) }

/-- `Queue.startPlayback` with its unconditional trailing save. -/
def sysStartPlayback (s : Sys) : Sys :=
  let q2 := startPlayback s.queue
  { queue := q2, durable := some (saveQueueState q2) }

/-- `Queue.pausePlayback` with its unconditional trailing save. -/
def sysPausePlayback (s : Sys) : Sys :=
  let q2 := pausePlayback s.queue
  { queue := q2, durable := some (saveQueueState q2) }

/-- `Queue.advanceToNext` at the system level: the `__activeNode is None`
early return performs no save; every other path saves before
returning. -/
def sysAdvanceToNext (s : Sys) : Option Track × Sys :=
  match s.queue.active with
  | none => (none, s)
  | some _ =>
    let r := advanceToNext s.queue
    (r.1, { queue := r.2, durable := some (saveQueueState r.2) })

/-- `Queue.rewindToPrevious` at the system level: the `__activeNode is
None` early return performs no save; every other path saves. -/
def sysRewindToPrevious (s : Sys) : Option Track × Sys :=
  match s.queue.active with
  | none => (none, s)
  | some _ =>
    let r := rewindToPrevious s.queue
    (r.1, { queue := r.2, durable := some (saveQueueState r.2) })

/-- `Queue.shuffleQueue` at the system level: the two no-op early returns
perform no save; the shuffling path saves. -/
def sysShuffleQueue (sh : List Track → List Track) (s : Sys) : Sys :=
  if s.queue.shuffleEnabled = true ∨ s.queue.queueSize ≤ 1 then s
  else
    let q2 := shuffleQueue sh s.queue
    { queue := q2, durable := some (saveQueueState q2) }

/-- `Queue.restoreOriginalOrder` at the system level: the not-shuffled
early return performs no save; the restoring path saves. -/
def sysRestoreOriginalOrder (s : Sys) : Sys :=
  if s.queue.shuffleEnabled = false then s
  else
    let q2 := restoreOriginalOrder s.queue
    { queue := q2, durable := some (saveQueueState q2) }

/-- `Queue.toggleRepeat` with its unconditional save. -/
def sysToggleRepeat (s : Sys) : Bool × Sys :=
  let r := toggleRepeat s.queue
  (r.1, { queue := r.2, durable := some (saveQueueState r.2) })

/-- `Queue.clearQueue` with its unconditional save. -/
def sysClearQueue (s : Sys) : Sys :=
  let q2 := clearQueue s.queue
  { queue := q2, durable := some (saveQueueState q2) }

/-! Example data used by concrete witnesses and counterexamples. -/

/-- Example track "A". -/
def exA : Track := ⟨"A", .single "X", "Al", "3:00"⟩

/-- Example track "B". -/
def exB : Track := ⟨"B", .single "X", "Al", "3:01"⟩

/-- Example track "C". -/
def exC : Track := ⟨"C", .single "X", "Al", "3:02"⟩

/-- A three-track queue with the middle track active, as produced by
adding A, B, C while unshuffled and advancing once. -/
def exQ3 : QueueState :=
  { tracks := [exA, exB, exC], active := some 1, queueSize := 3,
    shuffleEnabled := false, repeatEnabled := false, playbackActive := false,
    originalSequence := [exA, exB, exC] }

/-! Basic lemmas about track equality. -/

/-- `Track.__eq__` is reflexive. -/
theorem trackEq_refl (t : Track) : trackEq t t = true := by
  simp [trackEq]

/-- A track that is a member of a list is found by the duplicate scan. -/
theorem any_trackEq_of_mem {t : Track} {l : List Track} (h : t ∈ l) :
    l.any (fun o => trackEq t o) = true := by
  exact List.any_eq_true.mpr ⟨t, h, trackEq_refl t⟩

/-- C1 (counterexample): two tracks whose titles differ only in case match
after the spec's case normalization, yet `Track.__eq__` reports them
unequal — the code compares all four fields exactly, never
case-insensitively. -/
theorem trackEq_not_case_insensitive :
    specTrackEq ⟨"Hello", .single "X", "Al", "3:00"⟩ ⟨"hello", .single "X", "Al", "3:00"⟩ = true ∧
    trackEq ⟨"Hello", .single "X", "Al", "3:00"⟩ ⟨"hello", .single "X", "Al", "3:00"⟩ = false := by
  constructor <;> decide

/-- C1 (amended): track-reference equality is determined by the four
fields exactly: `Track.__eq__` returns true iff the titles, the string
renderings of the artist fields, the albums and the duration strings are
equal, with no case normalization. -/
theorem trackEq_iff_exact_fields (a b : Track) :
    trackEq a b = true ↔
      (a.title = b.title ∧ artistStr a.artist = artistStr b.artist ∧
       a.album = b.album ∧ a.duration = b.duration) := by
  simp [trackEq, Bool.and_eq_true, beq_iff_eq, and_assoc]

/-- C9: adding a track that `Track.__eq__`s one already in the queue is
rejected before any mutation: `addTrack` returns `false` and the entire
queue state (sequence, active position, size, flags, original order) is
unchanged. -/
theorem addTrack_duplicate_no_mutation (q : QueueState) (t : Track)
    (h : q.tracks.any (fun x => trackEq x t) = true) :
    addTrack q t = (false, q) := by
  simp [addTrack, h]

/-- C9 witness: adding the already-present track A to the example queue
returns false and leaves the state untouched. -/
theorem addTrack_duplicate_no_mutation_witness :
    exQ3.tracks.any (fun x => trackEq x exA) = true ∧
    addTrack exQ3 exA = (false, exQ3) :=
  ⟨by decide, addTrack_duplicate_no_mutation exQ3 exA (by decide)⟩

/-- C8: with repeat on, in a non-empty queue, advancing from the tail
returns the head's track and makes the head active, and rewinding from
the head returns the tail's track and makes the tail active. -/
theorem repeat_wraparound (q : QueueState) (hr : q.repeatEnabled = true)
    (hne : q.tracks ≠ []) :
    (q.active = some (q.tracks.length - 1) →
      (advanceToNext q).1 = q.tracks.head? ∧
      (advanceToNext q).2.active = some 0) ∧
    (q.active = some 0 →
      (rewindToPrevious q).1 = q.tracks.getLast? ∧
      (rewindToPrevious q).2.active = some (q.tracks.length - 1)) := by
  have hlen : 0 < q.tracks.length := List.length_pos.mpr hne
  have hemp : q.tracks.isEmpty = false := by
    simp [List.isEmpty_iff, hne]
  constructor
  · intro hact
    have hnext : ¬ (q.tracks.length - 1 + 1 < q.tracks.length) := by omega
    simp [advanceToNext, hact, hnext, hr, hemp, List.head?_eq_getElem?]
  · intro hact
    simp [rewindToPrevious, hact, hr, hemp, List.getLast?_eq_getElem?]

/-- C8 witness: in the example queue with repeat on, advancing from the
tail wraps to A and rewinding from the head wraps to C. -/
theorem repeat_wraparound_witness :
    (advanceToNext { exQ3 with repeatEnabled := true, active := some 2 }).1 = some exA ∧
    (rewindToPrevious { exQ3 with repeatEnabled := true, active := some 0 }).1 = some exC := by
  refine ⟨?_, ?_⟩
  · have h := (repeat_wraparound { exQ3 with repeatEnabled := true, active := some 2 }
      (by decide) (by decide)).1 (by decide)
    exact h.1.trans (by decide)
  · have h := (repeat_wraparound { exQ3 with repeatEnabled := true, active := some 0 }
      (by decide) (by decide)).2 (by decide)
    exact h.1.trans (by decide)

/-- `advanceToNext` iterated `n` times (discarding the returned tracks). -/
def advanceTimes (q : QueueState) : Nat → QueueState
  | 0 => q
  | n + 1 => (advanceToNext (advanceTimes q n)).2

/-- With repeat off and the head active, the first `j` advances (while in
range) only move the cursor forward. -/
theorem advanceTimes_in_range (q : QueueState) (hr : q.repeatEnabled = false)
    (h0 : q.active = some 0) (j : Nat) (hj : j < q.tracks.length) :
    advanceTimes q j = { q with active := some j } := by
  induction j with
  | zero =>
    cases q with
    | mk tracks active queueSize sh rp pl orig =>
      simp only [QueueState.mk.injEq] at h0 ⊢
      simp [advanceTimes, h0]
  | succ n ih =>
    have hn : n < q.tracks.length := Nat.lt_of_succ_lt hj
    have hstep := ih hn
    show (advanceToNext (advanceTimes q n)).2 = _
    rw [hstep]
    simp [advanceToNext, hj]

/-- C7: for a queue of N > 1 tracks with repeat off and the head active,
each of the first N-1 `advanceToNext` calls returns the new active track,
the (N-1)-th call leaves the tail active, and one further call returns
none, sets playing to false, and leaves the active position at the
tail. -/
theorem advance_traverses_to_tail (q : QueueState) (N : Nat)
    (hN : q.tracks.length = N) (h1 : 1 < N) (hr : q.repeatEnabled = false)
    (h0 : q.active = some 0) :
    (∀ j, j + 1 < N →
      (advanceToNext (advanceTimes q j)).1 = q.tracks[j + 1]? ∧
      (q.tracks[j + 1]?).isSome ∧
      (advanceTimes q (j + 1)).active = some (j + 1)) ∧
    (advanceTimes q (N - 1)).active = some (N - 1) ∧
    (advanceToNext (advanceTimes q (N - 1))).1 = none ∧
    (advanceToNext (advanceTimes q (N - 1))).2.playbackActive = false ∧
    (advanceToNext (advanceTimes q (N - 1))).2.active = some (N - 1) := by
  subst hN
  have htail := advanceTimes_in_range q hr h0 (q.tracks.length - 1) (by omega)
  refine ⟨?_, ?_, ?_, ?_, ?_⟩
  · intro j hj
    have hjq := advanceTimes_in_range q hr h0 j (by omega)
    refine ⟨?_, ?_, ?_⟩
    · rw [hjq]; simp [advanceToNext, hj]
    · rw [List.getElem?_eq_getElem (by omega : j + 1 < q.tracks.length)]
      rfl
    · show (advanceToNext (advanceTimes q j)).2.active = _
      rw [hjq]; simp [advanceToNext, hj]
  · rw [htail]
  · rw [htail]
    have : ¬ (q.tracks.length - 1 + 1 < q.tracks.length) := by omega
    simp [advanceToNext, this, hr]
  · rw [htail]
    have : ¬ (q.tracks.length - 1 + 1 < q.tracks.length) := by omega
    simp [advanceToNext, this, hr]
  · rw [htail]
    have : ¬ (q.tracks.length - 1 + 1 < q.tracks.length) := by omega
    simp [advanceToNext, this, hr]

/-- C7 witness: on the example three-track queue starting at the head with
repeat off, two advances reach the tail and the third returns none with
playing set to false. -/
theorem advance_traverses_to_tail_witness :
    (advanceTimes { exQ3 with active := some 0 } 2).active = some 2 ∧
    (advanceToNext (advanceTimes { exQ3 with active := some 0 } 2)).1 = none ∧
    (advanceToNext (advanceTimes { exQ3 with active := some 0 } 2)).2.playbackActive = false := by
  have h := advance_traverses_to_tail { exQ3 with active := some 0 } 3
    (by decide) (by decide) (by decide) (by decide)
  exact ⟨h.2.1, h.2.2.1, h.2.2.2.1⟩

/-- The cached `__queueSize` counter agrees with the length of the node
sequence reachable from the head. -/
abbrev sizeInv (q : QueueState) : Prop :=
  getSize q = q.tracks.length

/-- `addTrack` preserves the size invariant (it recounts the list in the
append case and mutates nothing in the duplicate case). -/
theorem sizeInv_addTrack (q : QueueState) (t : Track) (h : sizeInv q) :
    sizeInv (addTrack q t).2 := by
  unfold addTrack
  split
  · exact h
  · simp [sizeInv, getSize]

/-- `loadTracks` preserves the size invariant. -/
theorem sizeInv_loadTracks (q : QueueState) (coll : List Track) (h : sizeInv q) :
    sizeInv (loadTracks q coll) := by
  induction coll generalizing q with
  | nil => exact h
  | cons c rest ih =>
    exact ih (addTrack q c).2 (sizeInv_addTrack q c h)

/-- C10: after every public queue operation, `getSize()` equals the number
of nodes reachable from the head of the sequence (the length of the
modelled track list). -/
theorem getSize_matches_sequence (q : QueueState) (t : Track)
    (coll : List Track) (sh : List Track → List Track) (h : sizeInv q) :
    sizeInv (addTrack q t).2 ∧
    sizeInv (loadTracks q coll) ∧
    sizeInv (advanceToNext q).2 ∧
    sizeInv (rewindToPrevious q).2 ∧
    sizeInv (shuffleQueue sh q) ∧
    sizeInv (restoreOriginalOrder q) ∧
    sizeInv (toggleRepeat q).2 ∧
    sizeInv (clearQueue q) ∧
    sizeInv (startPlayback q) ∧
    sizeInv (pausePlayback q) := by
  refine ⟨sizeInv_addTrack q t h, sizeInv_loadTracks q coll h, ?_, ?_, ?_, ?_, ?_, ?_, ?_, ?_⟩
  · unfold advanceToNext
    rcases q.active with _ | i
    · exact h
    · simp only []
      split
      · exact h
      · split
        · exact h
        · exact h
  · unfold rewindToPrevious
    rcases q.active with _ | i
    · exact h
    · simp only []
      split
      · exact h
      · split <;> exact h
  · unfold shuffleQueue
    split
    · exact h
    · split
      · exact h
      · simp [sizeInv, getSize]
  · unfold restoreOriginalOrder
    split
    · exact h
    · simp [sizeInv, getSize]
  · exact h
  · simp [sizeInv, getSize, clearQueue, initQueue]
  · unfold startPlayback
    split <;> exact h
  · exact h

/-- C10 witness: the invariant holds of the example queue and is preserved
by adding a new track to it. -/
theorem getSize_matches_sequence_witness :
    sizeInv exQ3 ∧ sizeInv (addTrack exQ3 ⟨"D", .single "X", "Al", "3:03"⟩).2 :=
  ⟨by decide,
   (getSize_matches_sequence exQ3 ⟨"D", .single "X", "Al", "3:03"⟩ [] (fun l => l)
      (by decide)).1⟩

/-- A system state whose durable file is in sync with its (empty) queue. -/
def c6Sys : Sys := { queue := initQueue, durable := some (saveQueueState initQueue) }

/-- C6 (counterexample): `Queue.addTrack` itself performs no persistence
(src/Queue.py lines 56-91 contain no `saveQueueState` call), so
immediately after a successful `addTrack` completes the durable state is
stale: it does not equal the serialization of the current in-memory
state. -/
theorem addTrack_durable_stale :
    persistInv c6Sys ∧
    (sysAddTrack c6Sys exA).1 = true ∧
    ¬ persistInv (sysAddTrack c6Sys exA).2 := by
  refine ⟨by decide, by decide, by decide⟩

/-- C6 (amended): every mutating operation except `addTrack` persists the
new state before returning (no-op early returns mutate nothing), and
`addTrack`'s persistence is its caller's responsibility — both in-repo
call sites (`handleAddTrackToQueue` in src/Main.py and `loadTracks`)
persist after adding — so each complete mutating interaction preserves
the contract that the durable state equals the serialization of the
current in-memory state. -/
theorem mutating_ops_preserve_persistInv (s : Sys) (t : Track)
    (coll : List Track) (sh : List Track → List Track) (h : persistInv s) :
    persistInv (handleAddTrackToQueue s t) ∧
    persistInv (sysLoadTracks s coll) ∧
    persistInv (sysAdvanceToNext s).2 ∧
    persistInv (sysRewindToPrevious s).2 ∧
    persistInv (sysShuffleQueue sh s) ∧
    persistInv (sysRestoreOriginalOrder s) ∧
    persistInv (sysToggleRepeat s).2 ∧
    persistInv (sysClearQueue s) ∧
    persistInv (sysStartPlayback s) ∧
    persistInv (sysPausePlayback s) := by
  refine ⟨?_, rfl, ?_, ?_, ?_, ?_, rfl, rfl, rfl, rfl⟩
  · unfold handleAddTrackToQueue addTrack
    split
    · exact h
    · rfl
  · rcases hs : s.queue.active with _ | i
    · simpa [sysAdvanceToNext, hs] using h
    · simp [sysAdvanceToNext, hs]
  · rcases hs : s.queue.active with _ | i
    · simpa [sysRewindToPrevious, hs] using h
    · simp [sysRewindToPrevious, hs]
  · unfold sysShuffleQueue
    split
    · exact h
    · rfl
  · unfold sysRestoreOriginalOrder
    split
    · exact h
    · rfl

/-- C6 witness: the contract holds of the in-sync empty system and is
preserved by the full add-track interaction. -/
theorem mutating_ops_preserve_persistInv_witness :
    persistInv c6Sys ∧ persistInv (handleAddTrackToQueue c6Sys exB) :=
  ⟨by decide,
   (mutating_ops_preserve_persistInv c6Sys exB [] (fun l => l) (by decide)).1⟩

/-- Decoding the encoded list of artist names gives back the names. -/
theorem decodeStrings_map_str (names : List String) :
    decodeStrings (names.map .str) = .ok names := by
  induction names with
  | nil => rfl
  | cons a rest ih => simp [decodeStrings, ih, Except.map]

/-- `Track.fromDict` inverts `Track.toDict`. -/
theorem fromDict_toDict (t : Track) : fromDict (toDict t) = .ok t := by
  rcases t with ⟨title, artist, album, duration⟩
  rcases artist with s | names
  · rfl
  · simp [toDict, fromDict, jsonGet, artistToJson, jsonToArtist, asString,
          decodeStrings_map_str, Except.map, bind, Except.bind]

/-- The track-restoring loop succeeds on an encoded track list, appending
exactly the original tracks. -/
theorem appendTracksFromJson_map_toDict (l : List Track) (acc : List Track) :
    appendTracksFromJson (l.map toDict) acc = .ok (acc ++ l) := by
  induction l generalizing acc with
  | nil => simp [appendTracksFromJson]
  | cons a rest ih =>
    simp [appendTracksFromJson, fromDict_toDict, ih]

/-- C2: persisting any queue state whose active index is in range and
restoring it on a fresh queue succeeds and reproduces the same track
sequence (by track identity, in order), the same zero-based active index,
the same shuffled/repeat/playing flags, and the same original order. -/
theorem persist_restore_roundtrip (q : QueueState)
    (h : ∀ i, q.active = some i → i < q.tracks.length) :
    loadQueueState initQueue (some (stateToJson (saveQueueState q))) =
      (true,
        { tracks := q.tracks, active := q.active, queueSize := q.tracks.length,
          shuffleEnabled := q.shuffleEnabled, repeatEnabled := q.repeatEnabled,
          playbackActive := q.playbackActive,
          originalSequence := q.originalSequence }) := by
  unfold loadQueueState stateToJson saveQueueState
  simp only [jsonGet, List.find?, beq_self_eq_true]
  simp only [appendTracksFromJson_map_toDict, List.nil_append]
  rcases hact : q.active with _ | i
  · simp [saveActiveIndex, hact, initQueue, appendTracksFromJson_map_toDict]
  · have hi := h i hact
    simp [saveActiveIndex, hact, hi, initQueue, appendTracksFromJson_map_toDict]

/-- C2 witness: the round trip at the concrete example queue. -/
theorem persist_restore_roundtrip_witness :
    (∀ i, exQ3.active = some i → i < exQ3.tracks.length) ∧
    loadQueueState initQueue (some (stateToJson (saveQueueState exQ3))) =
      (true,
        { tracks := exQ3.tracks, active := exQ3.active, queueSize := 3,
          shuffleEnabled := false, repeatEnabled := false,
          playbackActive := false, originalSequence := exQ3.originalSequence }) :=
  ⟨by decide, persist_restore_roundtrip exQ3 (by decide)⟩

/-- A persisted file that is valid JSON, holds a well-formed track list,
but is missing the `current_index` (and later) keys. -/
def malformedState : Json :=
  .obj [("tracks", .arr [toDict ⟨"A", .single "X", "Al", "3:00"⟩])]

/-- C5: on the malformed persisted file above, `loadQueueState` reports
failure (returns false, no exception escapes) — but the queue is NOT left
in the empty state: the `try` block had already cleared the queue and
loaded one track before the KeyError on `current_index`, and the `except`
handler returns with that partial state in place.  The claim's
"fails closed to an empty queue" behavior is the stated intent of the
graceful-failure handler, and the code's partial mutation is the slip. -/
theorem loadQueueState_partial_failure :
    (loadQueueState initQueue (some malformedState)).1 = false ∧
    (loadQueueState initQueue (some malformedState)).2.tracks =
      [⟨"A", .single "X", "Al", "3:00"⟩] ∧
    getSize (loadQueueState initQueue (some malformedState)).2 = 1 := by
  refine ⟨rfl, by decide, rfl⟩

/-- Characterization of `shuffleQueue` on a valid, not-yet-shuffled state
with the active node at position `k`: the rebuilt sequence is
preceding ++ active ++ permuted following, the cursor stays at `k`, the
original order is captured if it was empty, and the shuffled flag is
set. -/
theorem shuffleQueue_eq (q : QueueState) (sh : List Track → List Track) (k : Nat)
    (hact : q.active = some k) (hk : k < q.tracks.length)
    (h1 : 1 < q.tracks.length) (hsz : q.queueSize = q.tracks.length)
    (hsh : q.shuffleEnabled = false) :
    shuffleQueue sh q =
      { q with
        tracks := q.tracks.take k ++ q.tracks.get ⟨k, hk⟩ :: sh (q.tracks.drop (k + 1)),
        queueSize :=
          (q.tracks.take k ++ q.tracks.get ⟨k, hk⟩ :: sh (q.tracks.drop (k + 1))).length,
        active := some k,
        originalSequence :=
          if q.originalSequence.isEmpty then q.tracks else q.originalSequence,
        shuffleEnabled := true } := by
  have hguard : ¬ (q.queueSize ≤ 1) := by omega
  have hg : q.tracks[k]? = some (q.tracks.get ⟨k, hk⟩) := by
    simp [List.getElem?_eq_getElem hk]
  unfold shuffleQueue
  rw [hsh]
  simp only [Bool.false_eq_true, if_false, if_neg hguard, hact, Option.bind_some, hg]
  simp [hk, List.length_take, Nat.min_eq_left hk.le]
  refine ⟨?_, ?_⟩
  · rw [← List.take_concat_get' q.tracks k hk, List.append_assoc, List.singleton_append]
  · rw [Nat.min_eq_left (by omega : k + 1 ≤ q.tracks.length)]
    omega

/-- C3: shuffling an un-shuffled queue with the active track at position
`k` leaves the first `k` entries unchanged in order, keeps the same track
at position `k` with the active cursor still there, and replaces the
entries after position `k` by a permutation of the original following
entries — for every outcome `sh` of the random permutation. -/
theorem shuffle_preserves_history (q : QueueState) (sh : List Track → List Track)
    (k : Nat) (hperm : ∀ l, (sh l).Perm l) (hact : q.active = some k)
    (hk : k < q.tracks.length) (h1 : 1 < q.tracks.length)
    (hsz : q.queueSize = q.tracks.length) (hsh : q.shuffleEnabled = false) :
    (shuffleQueue sh q).tracks.take k = q.tracks.take k ∧
    (shuffleQueue sh q).tracks[k]? = q.tracks[k]? ∧
    (shuffleQueue sh q).active = some k ∧
    ((shuffleQueue sh q).tracks.drop (k + 1)).Perm (q.tracks.drop (k + 1)) ∧
    (shuffleQueue sh q).tracks.length = q.tracks.length := by
  rw [shuffleQueue_eq q sh k hact hk h1 hsz hsh]
  have hlen1 : (q.tracks.take k).length = k := by
    simp [List.length_take, Nat.min_eq_left hk.le]
  have hlenf : (sh (q.tracks.drop (k + 1))).length = q.tracks.length - (k + 1) := by
    rw [(hperm (q.tracks.drop (k + 1))).length_eq, List.length_drop]
  refine ⟨?_, ?_, rfl, ?_, ?_⟩
  · rw [List.take_left' hlen1]
  · rw [List.getElem?_append_right (le_of_eq hlen1), hlen1]
    simp [List.getElem?_eq_getElem hk]
  · have hsplit : q.tracks.take k ++ q.tracks.get ⟨k, hk⟩ :: sh (q.tracks.drop (k + 1)) =
        q.tracks.take (k + 1) ++ sh (q.tracks.drop (k + 1)) := by
      rw [← List.take_concat_get' q.tracks k hk, List.append_assoc, List.singleton_append,
        List.get_eq_getElem]
    rw [hsplit, List.drop_left' (by simp [List.length_take]; omega)]
    exact hperm _
  · simp only [List.length_append, List.length_cons, hlen1, hlenf]
    omega

/-- C3 witness: shuffling the example queue (active at position 1) with a
reversing permutation preserves the history prefix, the active entry, and
permutes the tail. -/
theorem shuffle_preserves_history_witness :
    (shuffleQueue (fun l => l.reverse) exQ3).tracks.take 1 = exQ3.tracks.take 1 ∧
    (shuffleQueue (fun l => l.reverse) exQ3).tracks[1]? = exQ3.tracks[1]? ∧
    (shuffleQueue (fun l => l.reverse) exQ3).active = some 1 ∧
    ((shuffleQueue (fun l => l.reverse) exQ3).tracks.drop 2).Perm (exQ3.tracks.drop 2) := by
  have h := shuffle_preserves_history exQ3 (fun l => l.reverse) 1
    (fun l => l.reverse_perm) (by decide) (by decide) (by decide) (by decide) (by decide)
  exact ⟨h.1, h.2.1, h.2.2.1, h.2.2.2.1⟩

/-- In a list with pairwise-unequal tracks, the first-match scan for the
track at position `k` finds exactly position `k`. -/
theorem findTrackIdx_pairwise (l : List Track) (k : Nat) (hk : k < l.length)
    (hd : List.Pairwise (fun a b => trackEq a b = false) l) :
    findTrackIdx l (l.get ⟨k, hk⟩) = some k := by
  induction l generalizing k with
  | nil => simp at hk
  | cons a rest ih =>
    rcases List.pairwise_cons.mp hd with ⟨ha, hrest⟩
    cases k with
    | zero => simp [findTrackIdx, trackEq_refl]
    | succ n =>
      have hn : n < rest.length := by simpa using hk
      have hne : trackEq a ((a :: rest).get ⟨n + 1, hk⟩) = false := by
        simpa using ha _ (List.get_mem rest n hn)
      have hrec := ih n hn hrest
      simp only [findTrackIdx, hne, Bool.false_eq_true, if_false]
      simp only [List.get_cons_succ] at hne ⊢
      rw [hrec]
      rfl

/-- C4: in a valid, deduplicated, un-shuffled queue (original order either
already captured as the sequence or still empty), `shuffleQueue` followed
immediately by `restoreOriginalOrder` with no intervening `addTrack`
restores the exact pre-shuffle sequence, keeps the same active position
(hence the same active track), and clears the shuffled flag — for every
outcome `sh` of the random permutation. -/
theorem shuffle_restore_roundtrip (q : QueueState) (sh : List Track → List Track)
    (k : Nat) (hperm : ∀ l, (sh l).Perm l) (hact : q.active = some k)
    (hk : k < q.tracks.length) (hsz : q.queueSize = q.tracks.length)
    (hsh : q.shuffleEnabled = false)
    (horig : q.originalSequence = q.tracks ∨ q.originalSequence = [])
    (hdedup : List.Pairwise (fun a b => trackEq a b = false) q.tracks) :
    (restoreOriginalOrder (shuffleQueue sh q)).tracks = q.tracks ∧
    (restoreOriginalOrder (shuffleQueue sh q)).active = some k ∧
    (restoreOriginalOrder (shuffleQueue sh q)).shuffleEnabled = false := by
  by_cases h1 : 1 < q.tracks.length
  · rw [shuffleQueue_eq q sh k hact hk h1 hsz hsh]
    have hlen1 : (q.tracks.take k).length = k := by
      simp [List.length_take, Nat.min_eq_left hk.le]
    have horig2 :
        (if q.originalSequence.isEmpty then q.tracks else q.originalSequence) =
          q.tracks := by
      rcases horig with h | h
      · rw [h]
        simp
      · rw [h]
        simp
    have hTk : (q.tracks.take k ++ q.tracks.get ⟨k, hk⟩ :: sh (q.tracks.drop (k + 1)))[k]? =
        some (q.tracks.get ⟨k, hk⟩) := by
      rw [List.getElem?_append_right (le_of_eq hlen1), hlen1]
      simp
    have hTperm : (q.tracks.take k ++ q.tracks.get ⟨k, hk⟩ :: sh (q.tracks.drop (k + 1))).Perm
        q.tracks := by
      conv_rhs => rw [← List.take_append_drop k q.tracks, List.drop_eq_getElem_cons hk]
      exact List.Perm.append_left _ (List.Perm.cons _ (hperm _))
    have hfilter : (q.tracks.take k ++ q.tracks.get ⟨k, hk⟩ :: sh (q.tracks.drop (k + 1))).filter
        (fun x => !(q.tracks.any (fun o => trackEq x o))) = [] := by
      rw [List.filter_eq_nil_iff]
      intro x hx
      have := any_trackEq_of_mem (hTperm.mem_iff.mp hx)
      simp [this]
    unfold restoreOriginalOrder
    rw [horig2]
    simp only [Bool.not_true, Bool.false_eq_true, if_false, hfilter, List.append_nil]
    rw [show ((some k).bind fun a =>
        (q.tracks.take k ++ q.tracks.get ⟨k, hk⟩ :: sh (q.tracks.drop (k + 1)))[a]?) =
        some (q.tracks.get ⟨k, hk⟩) from hTk]
    simp only [findTrackIdx_pairwise q.tracks k hk hdedup]
    exact ⟨trivial, trivial, trivial⟩
  · have hsq : shuffleQueue sh q = q := by
      unfold shuffleQueue
      rw [hsh]
      have : q.queueSize ≤ 1 := by omega
      simp [this]
    have hro : restoreOriginalOrder q = q := by
      unfold restoreOriginalOrder
      rw [hsh]
      simp
    rw [hsq, hro]
    exact ⟨rfl, hact, hsh⟩

/-- C4 witness: shuffling the example queue with a reversing permutation
and restoring immediately yields the original sequence with the same
active position. -/
theorem shuffle_restore_roundtrip_witness :
    (restoreOriginalOrder (shuffleQueue (fun l => l.reverse) exQ3)).tracks = exQ3.tracks ∧
    (restoreOriginalOrder (shuffleQueue (fun l => l.reverse) exQ3)).active = some 1 ∧
    (restoreOriginalOrder (shuffleQueue (fun l => l.reverse) exQ3)).shuffleEnabled = false :=
  shuffle_restore_roundtrip exQ3 (fun l => l.reverse) 1 (fun l => l.reverse_perm)
    (by decide) (by decide) (by decide) (by decide) (Or.inl (by decide)) (by decide)

end ListenMusic
